import Mathlib

/-!
Verification of the semantic memory & retrieval core of the tensorpilot
repository (src/workflow/memory.py, src/workflow/rag.py, src/workflow/react.py),
as a shallow embedding in Lean 4.

Modelling conventions:
* Python strings are modelled as `List Char` (`PyStr`); `lower`, `strip`,
  `split`, and the substring operator `in` are modelled for the ASCII
  fragment, which covers every string the code and spec exercise.
* Python floats are modelled as exact rationals (`ℚ`).
* The one non-rational quantity, the cosine value
  `dot(a,b) / (sqrt(Σaᵢ²) * sqrt(Σbᵢ²))` computed by
  `_cosine_similarity` in memory.py, involves real square roots, so its
  numeric kernel is abstracted as a parameter `sim : List ℚ → List ℚ → ℚ`
  threaded through the development; every guard of the source
  (empty vectors, length mismatch, zero norm) is kept concrete.
  All theorems are universally quantified over `sim`, hence hold in
  particular for the true cosine kernel.
* The injected embedding function may raise; it is modelled as
  `PyStr → Option (List ℚ)` with `none` for a raised exception, and the
  whole capability is `Option`-al exactly as `embedding_fn` is in the source.
* `time.time()` default timestamps are wall-clock input, modelled as an
  explicit timestamp argument; the wall-clock `duration` field of a plan is
  omitted from the plan record for the same reason.
* Mutable state (stores, the manager's dict of per-user stores) is modelled
  by explicit state passing: each mutating operation returns the new state.
-/

namespace Tensorpilot

/-- Python strings, modelled as lists of characters. -/
abbrev PyStr := List Char

/-- Python's whitespace test (ASCII fragment): the characters matched by
`\s` and used by `str.split()` / `str.strip()`. -/
def pyIsSpace (c : Char) : Bool :=
  c == ' ' || c == '\t' || c == '\n' || c == '\r' || c == '\x0b' || c == '\x0c'

/-- Python's `str.lower()` (ASCII fragment). -/
def pyLower (s : PyStr) : PyStr := s.map Char.toLower

/-- Python's substring operator `needle in hay` on strings. -/
def pyIn (needle hay : PyStr) : Bool := decide (needle <:+: hay)

/-- Python's `str.strip()`: remove leading and trailing whitespace. -/
def pyStrip (s : PyStr) : PyStr :=
  ((s.dropWhile pyIsSpace).reverse.dropWhile pyIsSpace).reverse

/-- Worker for `pySplitWs`; `cur` holds the current word reversed. -/
def splitWsGo : PyStr → PyStr → List PyStr
  | cur, [] => if cur.isEmpty then [] else [cur.reverse]
  | cur, c :: rest =>
    if pyIsSpace c then
      if cur.isEmpty then splitWsGo [] rest
      else cur.reverse :: splitWsGo [] rest
    else splitWsGo (c :: cur) rest

/-- Python's `str.split()` with no argument: split on whitespace runs,
dropping empty pieces. -/
def pySplitWs (s : PyStr) : List PyStr := splitWsGo [] s

/-- Worker for `pySplitComma`; `cur` holds the current piece reversed. -/
def splitCommaGo : PyStr → PyStr → List PyStr
  | cur, [] => [cur.reverse]
  | cur, c :: rest =>
    if c == ',' then cur.reverse :: splitCommaGo [] rest
    else splitCommaGo (c :: cur) rest

/-- Python's `str.split(',')`: split on every comma, keeping empty pieces. -/
def pySplitComma (s : PyStr) : List PyStr := splitCommaGo [] s

/-- Does the accumulated (reversed) sentence end with `.`, `?` or `!`?
This is the lookbehind `(?<=[\.\?\!])` of the sentence-splitting regex in
`ReActPlanner._decompose_problem`. -/
def sentEndHead (acc : PyStr) : Bool :=
  match acc with
  | [] => false
  | p :: _ => p == '.' || p == '?' || p == '!'

/-- Worker for `sentSplit`, a state machine equivalent to scanning for the
non-overlapping matches of `(?<=[\.\?\!])\s+`: `skipping` is true while
inside a whitespace run that triggered a split (the greedy `\s+`), and
`acc` holds the current sentence reversed. -/
def sentSplitGo : Bool → PyStr → PyStr → List PyStr
  | _, acc, [] => [acc.reverse]
  | skipping, acc, c :: rest =>
    if pyIsSpace c then
      if skipping then sentSplitGo true acc rest
      else if sentEndHead acc then acc.reverse :: sentSplitGo true [] rest
      else sentSplitGo false (c :: acc) rest
    else sentSplitGo false (c :: acc) rest

/-- `re.split(r"(?<=[\.\?\!])\s+", problem)`: split on whitespace runs that
follow sentence-ending punctuation. -/
def sentSplit (s : PyStr) : List PyStr := sentSplitGo false [] s

/-- The character class `[0-9=+\-*/^()]` of `_decompose_problem`. -/
def mathChar (c : Char) : Bool :=
  c.isDigit || c == '=' || c == '+' || c == '-' || c == '*' || c == '/' ||
  c == '^' || c == '(' || c == ')'

/-- `re.search(r"[0-9=+\-*/^()]+", s)` succeeds iff some character of `s`
is in the class. -/
def hasMathChar (s : PyStr) : Bool := s.any mathChar

/-- The steps contributed by one sentence in `_decompose_problem`:
skip if empty after stripping; keep stripped sentence as one atomic step if
it contains a math character; else split on commas (keeping non-empty
stripped parts); else keep the whole stripped sentence. -/
def sentenceSteps (s0 : PyStr) : List PyStr :=
  let s := pyStrip s0
  if s.isEmpty then []
  else if hasMathChar s then [s]
  else if s.contains ',' then
    (pySplitComma s).filterMap (fun p =>
      let q := pyStrip p
      if q.isEmpty then none else some q)
  else [s]

/-- The synthetic step prepended when a RAG context is available:
`"Consult relevant formulas and proofs: " + rag_ctx.replace('\n', ' | ')`. -/
def consultStep (rag_ctx : PyStr) : PyStr :=
  "Consult relevant formulas and proofs: ".toList ++
    rag_ctx.flatMap (fun c => if c == '\n' then " | ".toList else [c])

/-- `ReActPlanner._decompose_problem(problem, rag_ctx)` from react.py. -/
def _decompose_problem (problem rag_ctx : PyStr) : List PyStr :=
  let steps := (sentSplit problem).flatMap sentenceSteps
  if rag_ctx.isEmpty then steps else consultStep rag_ctx :: steps

/-- One conversation turn, as stored in `MemoryStore.conversations`. -/
structure Turn where
  role : PyStr
  text : PyStr
  timestamp : ℚ
deriving DecidableEq

/-- One entry of the vector index `MemoryStore.vectors`:
`(id, owner, text, embedding, timestamp)`. -/
structure VecEntry where
  id : PyStr
  owner : PyStr
  text : PyStr
  emb : Option (List ℚ)
  timestamp : ℚ
deriving DecidableEq

/-- The in-memory store of memory.py.  `embedding_fn` is the optional
injected embedder (`none` result = the call raised); dictionaries are
modelled as insertion-ordered association lists. -/
structure MemoryStore where
  embedding_fn : Option (PyStr → Option (List ℚ))
  embedding_dim : Option Nat
  conversations : List (PyStr × List Turn)
  profiles : List (PyStr × List (PyStr × PyStr))
  vectors : List VecEntry

/-- `MemoryStore.__init__`. -/
def mkMemoryStore (fn : Option (PyStr → Option (List ℚ))) (dim : Option Nat) :
    MemoryStore :=
  ⟨fn, dim, [], [], []⟩

/-- Dictionary lookup on an association list (`d.get(k)` / `k in d`). -/
def alistGet? {β : Type} (k : PyStr) (l : List (PyStr × β)) : Option β :=
  (l.find? (fun p => p.1 == k)).map (·.2)

/-- `self.conversations.setdefault(convo_id, []).append(turn)`: append to the
existing entry in place, or add a new key at the end (Python dicts preserve
insertion order). -/
def alistAppendTurn (k : PyStr) (t : Turn) (l : List (PyStr × List Turn)) :
    List (PyStr × List Turn) :=
  if l.any (fun p => p.1 == k) then
    l.map (fun p => if p.1 == k then (p.1, p.2 ++ [t]) else p)
  else l ++ [(k, [t])]

/-- `{**old, **new}`: keys of `old` keep their position with values
overridden by `new`; keys only in `new` are appended in order. -/
def dictMerge (old new : List (PyStr × PyStr)) : List (PyStr × PyStr) :=
  old.map (fun p =>
    match alistGet? p.1 new with
    | some v => (p.1, v)
    | none => p) ++
  new.filter (fun q => !(old.any (fun p => p.1 == q.1)))

/-- The embedding computed (and validated) by
`MemoryStore.add_conversation_turn`: `None` if no embedder is configured,
if the embedder raised, or if a dimension is configured (truthy, i.e.
non-zero) and the returned vector's length differs from it. -/
def computeEmb (st : MemoryStore) (text : PyStr) : Option (List ℚ) :=
  match st.embedding_fn with
  | none => none
  | some f =>
    match f text with
    | none => none
    | some v =>
      match st.embedding_dim with
      | none => some v
      | some d => if d ≠ 0 ∧ v.length ≠ d then none else some v

/-- The record id `f"turn:{convo_id}:{n}"`. -/
def turnId (convo_id : PyStr) (n : Nat) : PyStr :=
  "turn:".toList ++ convo_id ++ ':' :: (Nat.repr n).toList

/-- `MemoryStore.add_conversation_turn(convo_id, role, text, timestamp)`.
The timestamp is an explicit argument (the source fills in `time.time()`
when the caller omits it). -/
def add_conversation_turn (st : MemoryStore) (convo_id role text : PyStr)
    (timestamp : ℚ) : MemoryStore :=
  let turn : Turn := ⟨role, text, timestamp⟩
  let convs := alistAppendTurn convo_id turn st.conversations
  let n := ((alistGet? convo_id convs).getD []).length - 1
  { st with
    conversations := convs
    vectors := st.vectors ++ [⟨turnId convo_id n, convo_id, text, computeEmb st text, timestamp⟩] }

/-- The stored message list for a conversation id (`self.conversations.get(convo_id, [])`). -/
def convMsgs (st : MemoryStore) (convo_id : PyStr) : List Turn :=
  (alistGet? convo_id st.conversations).getD []

/-- Python's `l[start:]` slice for an arbitrary integer `start`. -/
def pySliceFrom {α : Type} (l : List α) (start : Int) : List α :=
  if 0 ≤ start then l.drop start.toNat else l.drop (l.length - start.natAbs)

/-- Python's `l[:stop]` slice for an arbitrary integer `stop`. -/
def pySliceTo {α : Type} (l : List α) (stop : Int) : List α :=
  if 0 ≤ stop then l.take stop.toNat else l.take (l.length - stop.natAbs)

/-- `MemoryStore.get_conversation(convo_id, limit)`:
`msgs[-limit:] if limit else msgs[:]` (note `limit = 0` is falsy). -/
def get_conversation (st : MemoryStore) (convo_id : PyStr)
    (limit : Option Int) : List Turn :=
  let msgs := convMsgs st convo_id
  match limit with
  | none => msgs
  | some n => if n = 0 then msgs else pySliceFrom msgs (-n)

/-- `MemoryStore.add_user_profile(user_id, profile)`. -/
def add_user_profile (st : MemoryStore) (user_id : PyStr)
    (profile : List (PyStr × PyStr)) : MemoryStore :=
  let old := (alistGet? user_id st.profiles).getD []
  let merged := dictMerge old profile
  { st with
    profiles :=
      if st.profiles.any (fun p => p.1 == user_id) then
        st.profiles.map (fun p => if p.1 == user_id then (p.1, merged) else p)
      else st.profiles ++ [(user_id, merged)] }

/-- `MemoryStore.get_user_profile(user_id)`. -/
def get_user_profile (st : MemoryStore) (user_id : PyStr) : List (PyStr × PyStr) :=
  (alistGet? user_id st.profiles).getD []

/-- Python truthiness of an optional float list (`None` and `[]` are falsy). -/
def pyTruthyEmb (o : Option (List ℚ)) : Bool :=
  match o with
  | none => false
  | some l => !l.isEmpty

/-- `_cosine_similarity(a, b)` from memory.py.  The source returns `0.0`
for empty or length-mismatched vectors and for a zero norm
(`sqrt(Σaᵢ²) == 0` iff `Σaᵢ² == 0`); otherwise it returns
`dot(a,b)/(sqrt(Σaᵢ²)*sqrt(Σbᵢ²))`, whose irrational value is abstracted
as the parameter `sim` (see the header note). -/
def _cosine_similarity (sim : List ℚ → List ℚ → ℚ) (a b : List ℚ) : ℚ :=
  if a.isEmpty || b.isEmpty || a.length != b.length then 0
  else if (a.map (fun x => x * x)).sum = 0 ∨ (b.map (fun x => x * x)).sum = 0 then 0
  else sim a b

/-- The heuristic fallback score of `MemoryStore.query_memory`
(memory.py lines 102-110): `1.0` if the lowercase query is a substring of
the lowercase text, else `0.1 * common / max(1, len(q.split()))` where
`common` counts the distinct query words occurring in the text. -/
def heuristic_score (query text : PyStr) : ℚ :=
  let q := pyLower query
  let t := pyLower text
  if pyIn q t then 1
  else
    let words := pySplitWs q
    let common := (words.dedup.filter (fun w => pyIn w t)).length
    (common : ℚ) / (max 1 words.length : ℚ) * (1 / 10)

/-- The score `query_memory` assigns to one vector entry: cosine similarity
when both the query embedding and the record embedding are truthy,
the heuristic otherwise. -/
def scoreOf (sim : List ℚ → List ℚ → ℚ) (query : PyStr)
    (query_emb : Option (List ℚ)) (e : VecEntry) : ℚ :=
  if pyTruthyEmb query_emb && pyTruthyEmb e.emb then
    _cosine_similarity sim (query_emb.getD []) (e.emb.getD [])
  else heuristic_score query e.text

/-- A retrieval hit dict: `{id, owner, text, score, timestamp}`, plus the
`source` key that `RAGManager.retrieve` adds (absent for plain
`query_memory` results). -/
structure Hit where
  id : PyStr
  owner : PyStr
  text : PyStr
  score : ℚ
  timestamp : ℚ
  source : Option PyStr := none
deriving DecidableEq

/-- The hit built from a vector entry and its score. -/
def mkHit (e : VecEntry) (score : ℚ) : Hit :=
  ⟨e.id, e.owner, e.text, score, e.timestamp, none⟩

/-- `if owner and owner != owner_id: continue` — the record is kept when the
filter is absent or falsy (empty string) or equals the record's owner. -/
def keepOwner (ow : Option PyStr) (e : VecEntry) : Bool :=
  match ow with
  | none => true
  | some o => o.isEmpty || o == e.owner

/-- The comparison used to model Python's stable
`results.sort(key=score, reverse=True)`: `a` may precede `b` iff
`b.score ≤ a.score`. -/
def hitLE (a b : Hit) : Prop := b.score ≤ a.score

instance : DecidableRel hitLE :=
  fun a b => inferInstanceAs (Decidable (b.score ≤ a.score))

instance : IsTotal Hit hitLE :=
  ⟨fun a b => (le_total b.score a.score).imp id id⟩

instance : IsTrans Hit hitLE :=
  ⟨fun _ _ _ h1 h2 => le_trans h2 h1⟩

/-- Python's stable sort by score descending, modelled by insertion sort
(which is stable: an element is inserted before the first element whose
score is ≤ its own, hence equal-score elements keep their list order). -/
def sortByScoreDesc (l : List Hit) : List Hit := l.insertionSort hitLE

/-- The query embedding computed by `query_memory`: `None` when no embedder
is configured or the embedder raised (no dimension check here, unlike
`add_conversation_turn`). -/
def queryEmbedding (st : MemoryStore) (query : PyStr) : Option (List ℚ) :=
  st.embedding_fn.bind (fun f => f query)

/-- The body of the scoring loop of `query_memory` for one vector entry:
`none` when the entry fails the owner filter or its score is not > 0,
otherwise the hit. -/
def hitOf (sim : List ℚ → List ℚ → ℚ) (query : PyStr)
    (query_emb : Option (List ℚ)) (owner : Option PyStr) (e : VecEntry) :
    Option Hit :=
  if keepOwner owner e then
    let score := scoreOf sim query query_emb e
    if 0 < score then some (mkHit e score) else none
  else none

/-- The `results` list of `query_memory` before sorting: every vector entry
passing the owner filter whose score is > 0, as a hit, in insertion order. -/
def scoredResults (sim : List ℚ → List ℚ → ℚ) (st : MemoryStore)
    (query : PyStr) (query_emb : Option (List ℚ)) (owner : Option PyStr) :
    List Hit :=
  st.vectors.filterMap (hitOf sim query query_emb owner)

/-- `query_memory` with the query embedding already computed (the loop,
sort and `results[:top_k]` slice of memory.py lines 96-116). -/
def query_with_embedding (sim : List ℚ → List ℚ → ℚ) (st : MemoryStore)
    (query : PyStr) (query_emb : Option (List ℚ)) (owner : Option PyStr)
    (top_k : Int) : List Hit :=
  pySliceTo (sortByScoreDesc (scoredResults sim st query query_emb owner)) top_k

/-- `MemoryStore.query_memory(query, owner, top_k)`. -/
def query_memory (sim : List ℚ → List ℚ → ℚ) (st : MemoryStore)
    (query : PyStr) (owner : Option PyStr) (top_k : Int) : List Hit :=
  query_with_embedding sim st query (queryEmbedding st query) owner top_k

/-- The state of rag.py's `RAGManager`: one global store and an
insertion-ordered dict of per-user stores. -/
structure RAGState where
  global_store : MemoryStore
  user_stores : List (PyStr × MemoryStore)

/-- `RAGManager.__init__`. -/
def mkRAGManager (fn : Option (PyStr → Option (List ℚ))) (dim : Option Nat) :
    RAGState :=
  ⟨mkMemoryStore fn dim, []⟩

/-- `RAGManager._get_user_store(user_id)`: return the existing per-user
store, or create (and register) an empty one inheriting the global store's
embedder and dimension. -/
def _get_user_store (st : RAGState) (user_id : PyStr) : MemoryStore × RAGState :=
  match alistGet? user_id st.user_stores with
  | some s => (s, st)
  | none =>
    let s := mkMemoryStore st.global_store.embedding_fn st.global_store.embedding_dim
    (s, { st with user_stores := st.user_stores ++ [(user_id, s)] })

/-- Replace the value stored under `k` (models mutating the store object
held in the manager's dict). -/
def alistSet {β : Type} (k : PyStr) (v : β) (l : List (PyStr × β)) :
    List (PyStr × β) :=
  l.map (fun p => if p.1 == k then (p.1, v) else p)

/-- `RAGManager.add_global_document(doc_id, text, timestamp)`. -/
def add_global_document (st : RAGState) (doc_id text : PyStr) (timestamp : ℚ) :
    RAGState :=
  { st with
    global_store :=
      add_conversation_turn st.global_store "global".toList "system".toList
        (doc_id ++ ": ".toList ++ text) timestamp }

/-- `RAGManager.add_user_document(user_id, doc_id, text, timestamp)`. -/
def add_user_document (st : RAGState) (user_id doc_id text : PyStr)
    (timestamp : ℚ) : RAGState :=
  let p := _get_user_store st user_id
  let store := add_conversation_turn p.1 ("user:".toList ++ user_id)
    "system".toList (doc_id ++ ": ".toList ++ text) timestamp
  { p.2 with user_stores := alistSet user_id store p.2.user_stores }

/-- Python truthiness of an optional string (`None` and `""` are falsy). -/
def pyTruthyStr (o : Option PyStr) : Bool :=
  match o with
  | none => false
  | some s => !s.isEmpty

/-- Tag a hit with a `source` value (`r['source'] = ...`). -/
def tagSource (src : PyStr) (r : Hit) : Hit := { r with source := some src }

/-- The global hits of `RAGManager.retrieve`: the global store queried with
owner filter `'global'`, each hit tagged `source='global'`. -/
def global_hits (sim : List ℚ → List ℚ → ℚ) (st : RAGState) (query : PyStr)
    (top_k_global : Int) : List Hit :=
  (query_memory sim st.global_store query (some "global".toList) top_k_global).map
    (tagSource "global".toList)

/-- The user hits of `RAGManager.retrieve` for a truthy `user_id`: that
user's store queried with owner filter `'user:<user_id>'`, each hit tagged
`source='user'`. -/
def user_hits (sim : List ℚ → List ℚ → ℚ) (st : RAGState) (user_id query : PyStr)
    (top_k_user : Int) : List Hit :=
  (query_memory sim (_get_user_store st user_id).1 query
      (some ("user:".toList ++ user_id)) top_k_user).map
    (tagSource "user".toList)

/-- The concatenated result list of `retrieve` before sort/dedup:
global hits first, then user hits. -/
def retrieve_results (sim : List ℚ → List ℚ → ℚ) (st : RAGState)
    (query user_id : PyStr) (top_k_global top_k_user : Int) : List Hit :=
  global_hits sim st query top_k_global ++ user_hits sim st user_id query top_k_user

/-- Worker for `dedupByText`: drop every hit whose text was already seen. -/
def dedupGo : List PyStr → List Hit → List Hit
  | _, [] => []
  | seen, r :: rs =>
    if seen.contains r.text then dedupGo seen rs
    else r :: dedupGo (r.text :: seen) rs

/-- The de-duplication loop of `retrieve`: keep the first hit for each
distinct text. -/
def dedupByText (l : List Hit) : List Hit := dedupGo [] l

/-- `RAGManager.retrieve(query, user_id, top_k_global, top_k_user)`,
returning the merged hit list and the (possibly extended) manager state. -/
def retrieve (sim : List ℚ → List ℚ → ℚ) (st : RAGState) (query : PyStr)
    (user_id : Option PyStr) (top_k_global top_k_user : Int) :
    List Hit × RAGState :=
  if pyTruthyStr user_id then
    let uid := user_id.getD []
    let st2 := (_get_user_store st uid).2
    (dedupByText (sortByScoreDesc (retrieve_results sim st query uid top_k_global top_k_user)),
     st2)
  else
    (dedupByText (sortByScoreDesc (global_hits sim st query top_k_global)), st)

/-- `h['source'].upper()` followed by the `[SOURCE] text` format line. -/
def ragContextLine (h : Hit) : PyStr :=
  '[' :: ((h.source.getD []).map Char.toUpper) ++ "] ".toList ++ h.text

/-- `RAGManager.build_rag_context(query, user_id, k_global, k_user)`. -/
def build_rag_context (sim : List ℚ → List ℚ → ℚ) (st : RAGState)
    (query : PyStr) (user_id : Option PyStr) (k_global k_user : Int) :
    PyStr × RAGState :=
  let p := retrieve sim st query user_id k_global k_user
  if p.1.isEmpty then ([], p.2)
  else
    ("Relevant documents (RAG):\n".toList ++
       List.intercalate "\n".toList (p.1.map ragContextLine),
     p.2)

/-- A per-step verification record:
`{"tool": t, "result": r}` or `{"tool": t, "error": e}`. -/
inductive Verification where
  | ok (tool result : PyStr)
  | err (tool error : PyStr)
deriving DecidableEq

/-- One entry of the plan list: `{"step": s, "verification": v-or-None}`. -/
structure PlanStep where
  step : PyStr
  verification : Option Verification
deriving DecidableEq

/-- The plan dict returned by `ReActPlanner.plan` (minus the wall-clock
`duration` field; see the header note). -/
structure PlanOut where
  problem : PyStr
  rag_context : PyStr
  plan : List PlanStep
deriving DecidableEq

/-- The injected Verifier capability (`MCP.sympy_eval`): returns a result
or raises, the raised message captured as `Except.error (str(e))`. -/
abbrev Verifier := PyStr → Except PyStr PyStr

/-- The verification record stored for one step: `{tool: 'sympy', result}`
on success, `{tool: 'sympy', error}` on failure. -/
def runVerification (verifier : Verifier) (step : PyStr) : Verification :=
  match verifier step with
  | .ok r => .ok "sympy".toList r
  | .error e => .err "sympy".toList e

/-- The per-step loop of `ReActPlanner.plan`: returns the plan entries and
the list of arguments the Verifier was invoked with, in call order. -/
def planLoop (verifier : Verifier) (verify : Bool) :
    List PyStr → List PlanStep × List PyStr
  | [] => ([], [])
  | s :: rest =>
    let p := planLoop verifier verify rest
    if verify then (⟨s, some (runVerification verifier s)⟩ :: p.1, s :: p.2)
    else (⟨s, none⟩ :: p.1, p.2)

/-- The state of `ReActPlanner`: its RAG manager (the separate
conversation `MemoryStore` is never touched by `plan`). -/
structure PlannerState where
  rag : RAGState
  memory : MemoryStore

/-- The RAG context `plan` computes (via `build_rag_context` with the
default `k_global = k_user = 3`). -/
def planRagContext (sim : List ℚ → List ℚ → ℚ) (st : PlannerState)
    (problem : PyStr) (user_id : Option PyStr) : PyStr :=
  (build_rag_context sim st.rag problem user_id 3 3).1

/-- The decomposition `plan` verifies, including the possible synthetic
RAG step. -/
def planDecomposition (sim : List ℚ → List ℚ → ℚ) (st : PlannerState)
    (problem : PyStr) (user_id : Option PyStr) : List PyStr :=
  _decompose_problem problem (planRagContext sim st problem user_id)

/-- `ReActPlanner.plan(problem, user_id, verify)`: returns the plan output,
the new planner state, and the list of Verifier invocations made. -/
def ReActPlanner_plan (sim : List ℚ → List ℚ → ℚ) (verifier : Verifier)
    (st : PlannerState) (problem : PyStr) (user_id : Option PyStr)
    (verify : Bool) : PlanOut × PlannerState × List PyStr :=
  let ctx := build_rag_context sim st.rag problem user_id 3 3
  let decomposition := _decompose_problem problem ctx.1
  let p := planLoop verifier verify decomposition
  (⟨problem, ctx.1, p.1⟩, ⟨ctx.2, st.memory⟩, p.2)

/-! ## Claim-side definitions

Definitions in this section follow the spec's words (for refutation or for
refinement comparison with the source-side definitions above). -/

/-- The score formula as claim C2 states it: `1.0` if the lowercase query
is a substring of the lowercase text, otherwise `0.1 ×` (count of distinct
query words present in the text) `/` (count of distinct query words). -/
def c2_claimScore (query text : PyStr) : ℚ :=
  let q := pyLower query
  let t := pyLower text
  if pyIn q t then 1
  else
    let dw := (pySplitWs q).dedup
    (1 / 10) * ((dw.filter (fun w => pyIn w t)).length : ℚ) / (dw.length : ℚ)

/-- The amended C2 score formula: as `c2_claimScore` except the denominator
is the total number of query words counted with repetitions, clamped to at
least 1 (matching `max(1, len(q.split()))` in the source). -/
def c2_amendedScore (query text : PyStr) : ℚ :=
  let q := pyLower query
  let t := pyLower text
  if pyIn q t then 1
  else
    let words := pySplitWs q
    ((words.dedup.filter (fun w => pyIn w t)).length : ℚ) /
      (max 1 words.length : ℚ) * (1 / 10)

/-- Annotate list elements with their position, starting at `n`. -/
def withIdx {α : Type} : Nat → List α → List (Nat × α)
  | _, [] => []
  | n, a :: l => (n, a) :: withIdx (n + 1) l

/-- The total order claim C5 describes on index-annotated hits: strictly
higher score first, ties broken by lower (earlier) insertion index. -/
def c5_lex (a b : Nat × Hit) : Prop :=
  b.2.score < a.2.score ∨ (a.2.score = b.2.score ∧ a.1 ≤ b.1)

instance : DecidableRel c5_lex :=
  fun a b =>
    inferInstanceAs
      (Decidable (b.2.score < a.2.score ∨ (a.2.score = b.2.score ∧ a.1 ≤ b.1)))

/-- `query` as claim C5 states it: annotate the records with their
insertion index, keep owner-matching records with score > 0, sort by score
descending with ties broken by original insertion order (the
earlier-inserted record first), return the first `topK`. -/
def c5_spec (sim : List ℚ → List ℚ → ℚ) (st : MemoryStore) (query : PyStr)
    (owner : Option PyStr) (top_k : Int) : List Hit :=
  let indexed := (withIdx 0 st.vectors).filterMap (fun p =>
    (hitOf sim query (queryEmbedding st query) owner p.2).map (fun h => (p.1, h)))
  (((indexed.insertionSort c5_lex).map Prod.snd).take top_k.toNat)

/-- The decomposition algorithm as claim C6 / spec §4.3 states it:
split into sentences, trim each, drop empty ones, keep a sentence with a
math character as one atomic step, else split on commas into trimmed
non-empty steps, else keep the sentence; concatenate in sentence order. -/
def decomposeSpec (problem : PyStr) : List PyStr :=
  ((sentSplit problem).map pyStrip).flatMap (fun s =>
    if s.isEmpty then []
    else if hasMathChar s then [s]
    else if s.contains ',' then
      ((pySplitComma s).map pyStrip).filter (fun q => !q.isEmpty)
    else [s])

/-! ## Concrete states used by witnesses and counterexamples -/

/-- A concrete instantiation of the abstract cosine kernel. -/
def simZero : List ℚ → List ℚ → ℚ := fun _ _ => 0

/-- A store with two records (for owner `"a"`) whose texts both contain
`"alpha"`. -/
def exStTwo : MemoryStore :=
  add_conversation_turn
    (add_conversation_turn (mkMemoryStore none none) "a".toList "user".toList
      "alpha".toList 0)
    "a".toList "user".toList "alpha beta".toList 0

/-- A store with a single conversation turn for owner `"a"`. -/
def exStOne : MemoryStore :=
  add_conversation_turn (mkMemoryStore none none) "a".toList "user".toList
    "hi".toList 0

/-- An embedder returning a correct-dimension vector for `"hello world"`,
a wrong-dimension vector for `"hello"`, and raising on anything else. -/
def c4_embed : PyStr → Option (List ℚ) := fun t =>
  if t = "hello world".toList then some [1, 1]
  else if t = "hello".toList then some [1]
  else none

/-- A store configured with `c4_embed` and dimension 2, holding one record
`"hello world"` (stored with embedding `[1, 1]`). -/
def exStDim : MemoryStore :=
  add_conversation_turn (mkMemoryStore (some c4_embed) (some 2)) "c".toList
    "user".toList "hello world".toList 0

/-- A manager with one global document and one document for user `"alice"`,
both with stored text `"d: x"`. -/
def exStRag : RAGState :=
  add_user_document
    (add_global_document (mkRAGManager none none) "d".toList "x".toList 0)
    "alice".toList "d".toList "x".toList 0

/-- The global hit for `"d: x"` in `exStRag` under query `"x"`. -/
def exHitG : Hit :=
  ⟨"turn:global:0".toList, "global".toList, "d: x".toList, 1, 0,
   some "global".toList⟩

/-- The user hit for `"d: x"` in `exStRag` under query `"x"`. -/
def exHitU : Hit :=
  ⟨"turn:user:alice:0".toList, "user:alice".toList, "d: x".toList, 1, 0,
   some "user".toList⟩

/-- A vector entry with text `"foo"` and no embedding. -/
def recFoo : VecEntry := ⟨"i".toList, "o".toList, "foo".toList, none, 0⟩

/-- The query `"foo foo bar"` (a repeated word, where the claimed and the
implemented heuristic denominators differ). -/
def c2q : PyStr := "foo foo bar".toList

/-! ## Helper lemmas -/

/-- Once a text is in the seen-set, no hit with that text survives dedup. -/
lemma dedupGo_text_not_mem {t : PyStr} :
    ∀ (l : List Hit) (seen : List PyStr), t ∈ seen →
      ∀ r ∈ dedupGo seen l, r.text ≠ t := by
  intro l
  induction l with
  | nil => intro seen _ r hr; simp [dedupGo] at hr
  | cons a l ih =>
    intro seen hseen r hr
    simp only [dedupGo] at hr
    by_cases hc : seen.contains a.text
    · rw [if_pos hc] at hr
      exact ih seen hseen r hr
    · rw [if_neg hc] at hr
      rcases List.mem_cons.mp hr with h | h
      · subst h
        intro hat
        exact hc (List.elem_iff.mpr (hat ▸ hseen))
      · exact ih (a.text :: seen) (List.mem_cons_of_mem _ hseen) r h

/-- Dedup keeps exactly the first hit bearing each text: filtering the
deduplicated list for a text not yet seen yields the first match. -/
lemma dedupGo_filter_text {t : PyStr} :
    ∀ (l : List Hit) (seen : List PyStr), t ∉ seen →
      (dedupGo seen l).filter (fun r => r.text == t) =
        (l.filter (fun r => r.text == t)).take 1 := by
  intro l
  induction l with
  | nil => intro seen _; rfl
  | cons a l ih =>
    intro seen hseen
    simp only [dedupGo]
    by_cases hc : seen.contains a.text
    · rw [if_pos hc]
      have hat : (a.text == t) = false := by
        rw [beq_eq_false_iff_ne]
        intro h
        exact hseen (h ▸ List.elem_iff.mp hc)
      rw [ih seen hseen]
      simp only [List.filter_cons, hat, Bool.false_eq_true, if_false]
    · rw [if_neg hc]
      by_cases hat : a.text = t
      · have hpa : (a.text == t) = true := by simpa using hat
        simp only [List.filter_cons, hpa, if_true]
        have hnil : (dedupGo (a.text :: seen) l).filter (fun r => r.text == t) = [] := by
          rw [List.filter_eq_nil_iff]
          intro r hr
          simpa using dedupGo_text_not_mem l (a.text :: seen)
            (hat ▸ List.mem_cons_self _ _) r hr
        rw [hnil]
        simp
      · have hpa : (a.text == t) = false := by simpa using hat
        simp only [List.filter_cons, hpa, Bool.false_eq_true, if_false]
        exact ih (a.text :: seen) (by
          intro h
          rcases List.mem_cons.mp h with h | h
          · exact hat h.symm
          · exact hseen h)

/-- Stability of the modelled sort: if exactly the hits `g` then `u`
match a predicate and `u`'s score is not above `g`'s, the sorted list
still has exactly `g` then `u` as its matches. -/
lemma filter_sortByScoreDesc_pair {p : Hit → Bool} {l : List Hit} {g u : Hit}
    (hf : l.filter p = [g, u]) (hle : hitLE g u) :
    (sortByScoreDesc l).filter p = [g, u] := by
  have hgu : List.Sublist [g, u] l := hf ▸ List.filter_sublist l
  have hst : List.Sublist [g, u] (sortByScoreDesc l) :=
    List.pair_sublist_insertionSort hle hgu
  have hperm : List.Perm ((sortByScoreDesc l).filter p) [g, u] := by
    have := (List.perm_insertionSort hitLE l).filter p
    rwa [hf] at this
  have hpg : p g = true := by
    have : g ∈ l.filter p := by rw [hf]; exact List.mem_cons_self _ _
    exact List.of_mem_filter this
  have hpu : p u = true := by
    have : u ∈ l.filter p := by rw [hf]; simp
    exact List.of_mem_filter this
  have hsub2 : List.Sublist [g, u] ((sortByScoreDesc l).filter p) := by
    have := hst.filter p
    simpa [hpg, hpu] using this
  exact (hsub2.eq_of_length (by rw [hperm.length_eq])).symm

/-- Truthiness of a non-empty optional string. -/
lemma pyTruthyStr_some {s : PyStr} (h : s ≠ []) :
    pyTruthyStr (some s) = true := by
  simp [pyTruthyStr, h]

/-- C1: if a global document and a user document surface with exactly equal
text and equal score (and no other hit shares that text), `retrieve`
concatenates global hits before user hits, stable-sorts by score
descending, dedups by text keeping the first survivor, and hence returns
the hit with `source == "global"`. -/
theorem retrieve_global_wins_ties (sim : List ℚ → List ℚ → ℚ) (st : RAGState)
    (query uid t : PyStr) (kg ku : Int) (g u : Hit)
    (huid : uid ≠ [])
    (hfil : (retrieve_results sim st query uid kg ku).filter
      (fun r => r.text == t) = [g, u])
    (hg : g.source = some "global".toList)
    (hu : u.source = some "user".toList)
    (hsc : g.score = u.score) :
    (retrieve sim st query (some uid) kg ku).1.filter (fun r => r.text == t) = [g]
      ∧ ∀ r ∈ (retrieve sim st query (some uid) kg ku).1,
          r.text = t → r.source = some "global".toList := by
  have hres : (retrieve sim st query (some uid) kg ku).1 =
      dedupByText (sortByScoreDesc (retrieve_results sim st query uid kg ku)) := by
    simp [retrieve, pyTruthyStr_some huid]
  have hle : hitLE g u := le_of_eq hsc.symm
  have hsorted := filter_sortByScoreDesc_pair hfil hle
  have hded : (dedupByText (sortByScoreDesc (retrieve_results sim st query uid kg ku))).filter
      (fun r => r.text == t) = [g] := by
    unfold dedupByText
    rw [dedupGo_filter_text _ [] (List.not_mem_nil t), hsorted]
    rfl
  refine ⟨by rw [hres]; exact hded, ?_⟩
  intro r hr hrt
  have : r ∈ (retrieve sim st query (some uid) kg ku).1.filter (fun r => r.text == t) :=
    List.mem_filter.mpr ⟨hr, by simpa using hrt⟩
  rw [hres, hded] at this
  have : r = g := by simpa using this
  rw [this, hg]

/-- Witness for C1 at a concrete manager state: a global and a user
document both stored as `"d: x"`, both scoring 1 on query `"x"`. -/
theorem retrieve_global_wins_ties_witness :
    (retrieve simZero exStRag "x".toList (some "alice".toList) 3 3).1.filter
        (fun r => r.text == "d: x".toList) = [exHitG]
      ∧ ∀ r ∈ (retrieve simZero exStRag "x".toList (some "alice".toList) 3 3).1,
          r.text = "d: x".toList → r.source = some "global".toList :=
  retrieve_global_wins_ties simZero exStRag "x".toList "alice".toList
    "d: x".toList 3 3 exHitG exHitU (by decide) (by decide) (by decide)
    (by decide) (by decide)

/-- C2 counterexample: for the query `"foo foo bar"` (a repeated word)
against a record with text `"foo"` scored heuristically, the code computes
`0.1 × 1/3 = 1/30` (denominator `len(q.split()) = 3`, with repetitions),
while the claimed formula gives `0.1 × 1/2 = 1/20` (denominator = number
of distinct query words). -/
theorem heuristic_denominator_counterexample :
    scoreOf simZero c2q none recFoo = 1 / 30
      ∧ c2_claimScore c2q recFoo.text = 1 / 20
      ∧ ((1 : ℚ) / 30) ≠ 1 / 20 := by
  have e1 : pyLower ['f', 'o', 'o', ' ', 'f', 'o', 'o', ' ', 'b', 'a', 'r'] =
      ['f', 'o', 'o', ' ', 'f', 'o', 'o', ' ', 'b', 'a', 'r'] := by decide
  have e2 : pyLower ['f', 'o', 'o'] = ['f', 'o', 'o'] := by decide
  have h2 : pyIn ['f', 'o', 'o', ' ', 'f', 'o', 'o', ' ', 'b', 'a', 'r']
      ['f', 'o', 'o'] = false := by decide
  have h3 : pySplitWs ['f', 'o', 'o', ' ', 'f', 'o', 'o', ' ', 'b', 'a', 'r'] =
      [['f', 'o', 'o'], ['f', 'o', 'o'], ['b', 'a', 'r']] := by decide
  have h4 : List.filter (fun w => pyIn w ['f', 'o', 'o'])
      [['f', 'o', 'o'], ['b', 'a', 'r']] = [['f', 'o', 'o']] := by decide
  have h5 : ([['f', 'o', 'o'], ['f', 'o', 'o'], ['b', 'a', 'r']] : List PyStr).dedup =
      [['f', 'o', 'o'], ['b', 'a', 'r']] := by decide
  refine ⟨?_, ?_, by norm_num⟩
  · simp only [scoreOf, pyTruthyEmb, recFoo, c2q, Bool.false_and, Bool.false_eq_true,
      if_false, heuristic_score]
    norm_num [e1, e2, h2, h3, h4, h5, max_def]
  · simp only [c2_claimScore, recFoo, c2q]
    norm_num [e1, e2, h2, h3, h4, h5]

/-- C2 amended: whenever the score is computed heuristically (no truthy
query embedding or no truthy record embedding), it is `1.0` when the
lowercase query is a substring of the lowercase text, and otherwise
`0.1 × (distinct query words present) / max(1, total query word count)` —
the denominator counts the query's words with repetitions, not the
distinct ones. -/
theorem heuristic_score_amended (sim : List ℚ → List ℚ → ℚ) (query : PyStr)
    (qe : Option (List ℚ)) (e : VecEntry)
    (h : (pyTruthyEmb qe && pyTruthyEmb e.emb) = false) :
    scoreOf sim query qe e = c2_amendedScore query e.text := by
  simp only [scoreOf, h, Bool.false_eq_true, if_false]
  rfl

/-- Witness for C2 (amended) at a concrete heuristically-scored record. -/
theorem heuristic_score_amended_witness :
    (pyTruthyEmb none && pyTruthyEmb recFoo.emb) = false
      ∧ scoreOf simZero c2q none recFoo = c2_amendedScore c2q recFoo.text :=
  ⟨by decide, heuristic_score_amended simZero c2q none recFoo (by decide)⟩

/-- C3 counterexample: on a store holding two records that both score 1 on
the query, `top_k = -1` returns one hit (Python's `results[:-1]`), not the
empty list the claim specifies. -/
theorem negative_topk_counterexample :
    query_memory simZero exStTwo "alpha".toList none (-1) ≠ []
      ∧ (query_memory simZero exStTwo "alpha".toList none (-1)).length = 1 :=
  ⟨by decide, by decide⟩

/-- C3 amended: a negative `topK = -m` is interpreted by Python slicing:
`query` returns all but the last `m` of the sorted positive-score results
(so the result is empty exactly when `m` is at least their number), and no
error is raised (the operation is total). -/
theorem query_memory_negative_topk (sim : List ℚ → List ℚ → ℚ)
    (st : MemoryStore) (query : PyStr) (ow : Option PyStr) (k : Int)
    (hk : k < 0) :
    query_memory sim st query ow k =
      (sortByScoreDesc (scoredResults sim st query (queryEmbedding st query) ow)).take
        ((sortByScoreDesc (scoredResults sim st query (queryEmbedding st query) ow)).length
          - k.natAbs)
      ∧ (query_memory sim st query ow k = [] ↔
          (sortByScoreDesc (scoredResults sim st query (queryEmbedding st query) ow)).length
            ≤ k.natAbs) := by
  have hneg : ¬(0 ≤ k) := not_le.mpr hk
  have h1 : query_memory sim st query ow k =
      (sortByScoreDesc (scoredResults sim st query (queryEmbedding st query) ow)).take
        ((sortByScoreDesc (scoredResults sim st query (queryEmbedding st query) ow)).length
          - k.natAbs) := by
    simp [query_memory, query_with_embedding, pySliceTo, hneg]
  refine ⟨h1, ?_⟩
  rw [h1, List.take_eq_nil_iff]
  constructor
  · rintro (h | h)
    · exact Nat.sub_eq_zero_iff_le.mp h
    · simp [h]
  · intro h
    exact Or.inl (Nat.sub_eq_zero_iff_le.mpr h)

/-- Witness for C3 (amended) at the concrete two-record store. -/
theorem query_memory_negative_topk_witness :
    ((-1 : Int) < 0)
      ∧ query_memory simZero exStTwo "alpha".toList none (-1) =
        (sortByScoreDesc (scoredResults simZero exStTwo "alpha".toList
            (queryEmbedding exStTwo "alpha".toList) none)).take
          ((sortByScoreDesc (scoredResults simZero exStTwo "alpha".toList
              (queryEmbedding exStTwo "alpha".toList) none)).length - (-1 : Int).natAbs) :=
  ⟨by decide,
   (query_memory_negative_topk simZero exStTwo "alpha".toList none (-1) (by decide)).1⟩

/-- C4 counterexample: with configured dimension 2, the embedder returns
the wrong-dimension vector `[1]` for the query `"hello"`; the query is not
treated as having no embedding — the stored record (embedding `[1, 1]`)
scores 0 via the length-mismatch guard and is dropped, whereas with the
vector treated as absent the record would score 1.0 heuristically and be
returned. -/
theorem query_dim_mismatch_counterexample :
    queryEmbedding exStDim "hello".toList = some [1]
      ∧ query_memory simZero exStDim "hello".toList none 5 = []
      ∧ query_with_embedding simZero exStDim "hello".toList none none 5 =
          [⟨"turn:c:0".toList, "c".toList, "hello world".toList, 1, 0, none⟩]
      ∧ query_memory simZero exStDim "hello".toList none 5 ≠
          query_with_embedding simZero exStDim "hello".toList none none 5 :=
  ⟨by decide, by decide, by decide, by decide⟩

/-- C4 amended: an embedder failure is treated as an absent vector both in
`add_conversation_turn` and in `query_memory`, and a wrong-dimension
vector is treated as absent in `add_conversation_turn` only; in
`query_memory` the wrong-dimension query vector is retained, and cosine
similarity against any stored embedding of a different length is 0.
No error propagates in either operation (both are total functions). -/
theorem embedding_failures_amended (sim : List ℚ → List ℚ → ℚ)
    (st : MemoryStore) (f : PyStr → Option (List ℚ))
    (cid role text q : PyStr) (ts : ℚ) (ow : Option PyStr) (k : Int) :
    (st.embedding_fn = some f → f text = none → computeEmb st text = none)
      ∧ (∀ d v, st.embedding_fn = some f → st.embedding_dim = some d →
          d ≠ 0 → f text = some v → v.length ≠ d → computeEmb st text = none)
      ∧ ((add_conversation_turn st cid role text ts).vectors.map VecEntry.emb =
          st.vectors.map VecEntry.emb ++ [computeEmb st text])
      ∧ (st.embedding_fn = some f → f q = none →
          query_memory sim st q ow k = query_with_embedding sim st q none ow k)
      ∧ (∀ v, st.embedding_fn = some f → f q = some v →
          query_memory sim st q ow k = query_with_embedding sim st q (some v) ow k)
      ∧ (∀ a b : List ℚ, a.length ≠ b.length → _cosine_similarity sim a b = 0) := by
  refine ⟨?_, ?_, ?_, ?_, ?_, ?_⟩
  · intro h1 h2
    simp [computeEmb, h1, h2]
  · intro d v h1 hd hd0 hv hlen
    simp only [computeEmb, h1, hv, hd]
    rw [if_pos ⟨hd0, hlen⟩]
  · simp [add_conversation_turn]
  · intro h1 h2
    simp [query_memory, queryEmbedding, h1, h2]
  · intro v h1 h2
    simp [query_memory, queryEmbedding, h1, h2]
  · intro a b hlen
    simp [_cosine_similarity, hlen]

/-- Witness for C4 (amended): the embedder raising on a query makes the
query proceed with no query embedding. -/
theorem embedding_failures_amended_witness :
    c4_embed "zzz".toList = none
      ∧ query_memory simZero exStDim "zzz".toList none 5 =
          query_with_embedding simZero exStDim "zzz".toList none none 5 :=
  ⟨by decide,
   (embedding_failures_amended simZero exStDim c4_embed "c".toList "user".toList
      "hello world".toList "zzz".toList 0 none 5).2.2.2.1 rfl (by decide)⟩

/-- On index-annotated hits whose indices are ordered, the lexicographic
order of C5 agrees with the plain score comparison. -/
lemma c5_lex_iff (x q : Nat × Hit) (h : x.1 ≤ q.1) :
    c5_lex x q ↔ hitLE x.2 q.2 := by
  unfold c5_lex hitLE
  constructor
  · rintro (h1 | ⟨h1, _⟩)
    · exact le_of_lt h1
    · exact le_of_eq h1.symm
  · intro h1
    rcases lt_or_eq_of_le h1 with h2 | h2
    · exact Or.inl h2
    · exact Or.inr ⟨h2.symm, h⟩

/-- Inserting an element whose index is below every index in the list
commutes with dropping the indices. -/
lemma map_snd_orderedInsert (x : Nat × Hit) :
    ∀ (M : List (Nat × Hit)), (∀ q ∈ M, x.1 < q.1) →
      (List.orderedInsert c5_lex x M).map Prod.snd =
        List.orderedInsert hitLE x.2 (M.map Prod.snd) := by
  intro M
  induction M with
  | nil => intro _; rfl
  | cons q M ih =>
    intro hb
    have hq : x.1 ≤ q.1 :=
      le_of_lt (hb q (List.mem_cons_self _ _))
    by_cases hle : hitLE x.2 q.2
    · have hlex : c5_lex x q := (c5_lex_iff x q hq).mpr hle
      simp only [List.orderedInsert, if_pos hlex, if_pos hle, List.map_cons]
    · have hlex : ¬c5_lex x q := fun h => hle ((c5_lex_iff x q hq).mp h)
      simp only [List.orderedInsert, if_neg hlex, if_neg hle, List.map_cons]
      rw [ih (fun p hp => hb p (List.mem_cons_of_mem _ hp))]

/-- Sorting index-annotated hits by the C5 lexicographic order and then
dropping the indices equals sorting the plain hits by score descending
(the stable sort), provided the indices increase along the list. -/
lemma map_snd_insertionSort :
    ∀ (L : List (Nat × Hit)), L.Pairwise (fun a b => a.1 < b.1) →
      (List.insertionSort c5_lex L).map Prod.snd =
        List.insertionSort hitLE (L.map Prod.snd) := by
  intro L
  induction L with
  | nil => intro _; rfl
  | cons x L ih =>
    intro hp
    rcases List.pairwise_cons.mp hp with ⟨hx, hp2⟩
    simp only [List.insertionSort, List.map_cons]
    rw [map_snd_orderedInsert x _
      (fun q hq => hx q ((List.mem_insertionSort c5_lex).mp hq)), ih hp2]

/-- Every index in the annotated, filtered list is at least the start
index. -/
lemma withIdx_filterMap_bound {α β : Type} (G : α → Option β) :
    ∀ (l : List α) (n : Nat),
      ∀ q ∈ (withIdx n l).filterMap (fun p => (G p.2).map (fun h => (p.1, h))),
        n ≤ q.1 := by
  intro l
  induction l with
  | nil => intro n q hq; simp [withIdx] at hq
  | cons a l ih =>
    intro n q hq
    simp only [withIdx, List.filterMap_cons] at hq
    cases hG : G a with
    | none =>
      rw [hG] at hq
      exact le_trans (Nat.le_succ n) (ih (n + 1) q hq)
    | some b =>
      rw [hG] at hq
      rcases List.mem_cons.mp hq with h | h
      · rw [h]
      · exact le_trans (Nat.le_succ n) (ih (n + 1) q h)

/-- The indices of the annotated, filtered list increase along the list. -/
lemma withIdx_filterMap_pairwise {α β : Type} (G : α → Option β) :
    ∀ (l : List α) (n : Nat),
      ((withIdx n l).filterMap (fun p => (G p.2).map (fun h => (p.1, h)))).Pairwise
        (fun a b => a.1 < b.1) := by
  intro l
  induction l with
  | nil => intro n; simp [withIdx]
  | cons a l ih =>
    intro n
    simp only [withIdx, List.filterMap_cons]
    cases hG : G a with
    | none => exact ih (n + 1)
    | some b =>
      refine List.pairwise_cons.mpr ⟨?_, ih (n + 1)⟩
      intro q hq
      exact lt_of_lt_of_le (Nat.lt_succ_self n) (withIdx_filterMap_bound G l (n + 1) q hq)

/-- Annotating with indices, filtering, and dropping the indices is plain
filtering. -/
lemma map_snd_withIdx_filterMap {α β : Type} (G : α → Option β) :
    ∀ (l : List α) (n : Nat),
      ((withIdx n l).filterMap (fun p => (G p.2).map (fun h => (p.1, h)))).map
          Prod.snd = l.filterMap G := by
  intro l
  induction l with
  | nil => intro n; rfl
  | cons a l ih =>
    intro n
    simp only [withIdx, List.filterMap_cons]
    cases hG : G a with
    | none => exact ih (n + 1)
    | some b => simp [ih (n + 1)]

/-- C5: for every store state, query, owner filter and non-negative `topK`,
`query_memory` excludes the records with score ≤ 0, sorts the remaining
ones by score descending with ties broken by original insertion order
(earlier-inserted first), and returns exactly the first `topK` of that
sorted sequence. -/
theorem query_memory_matches_c5 (sim : List ℚ → List ℚ → ℚ)
    (st : MemoryStore) (query : PyStr) (ow : Option PyStr) (k : Int)
    (hk : 0 ≤ k) :
    query_memory sim st query ow k = c5_spec sim st query ow k := by
  simp only [query_memory, query_with_embedding, c5_spec]
  rw [map_snd_insertionSort _
    (withIdx_filterMap_pairwise (hitOf sim query (queryEmbedding st query) ow)
      st.vectors 0),
    map_snd_withIdx_filterMap (hitOf sim query (queryEmbedding st query) ow)
      st.vectors 0]
  simp [pySliceTo, hk, sortByScoreDesc, scoredResults]

/-- Witness for C5 at the concrete two-record store. -/
theorem query_memory_matches_c5_witness :
    ((0 : Int) ≤ 5)
      ∧ query_memory simZero exStTwo "alpha".toList none 5 =
          c5_spec simZero exStTwo "alpha".toList none 5 :=
  ⟨by decide,
   query_memory_matches_c5 simZero exStTwo "alpha".toList none 5 (by decide)⟩

/-- Keeping the non-empty stripped comma pieces is the same as stripping
all pieces and filtering out the empty ones. -/
lemma filterMap_strip (l : List PyStr) :
    l.filterMap (fun p =>
        let q := pyStrip p
        if q.isEmpty then none else some q) =
      (l.map pyStrip).filter (fun q => !q.isEmpty) := by
  induction l with
  | nil => rfl
  | cons a l ih =>
    simp only [List.filterMap_cons, List.map_cons, List.filter_cons]
    by_cases h : (pyStrip a).isEmpty = true
    · rw [if_pos h, h]
      simp only [Bool.not_true, Bool.false_eq_true, if_false]
      exact ih
    · rw [if_neg h, Bool.not_eq_true] at *
      rw [h]
      simp only [Bool.not_false, if_true]
      rw [ih]

/-- The per-sentence step computation, stated on the stripped sentence
(the form used by `decomposeSpec`). -/
lemma sentenceSteps_eq (a : PyStr) :
    sentenceSteps a =
      (if (pyStrip a).isEmpty then []
       else if hasMathChar (pyStrip a) then [pyStrip a]
       else if (pyStrip a).contains ',' then
         ((pySplitComma (pyStrip a)).map pyStrip).filter (fun q => !q.isEmpty)
       else [pyStrip a]) := by
  simp only [sentenceSteps]
  by_cases h1 : (pyStrip a).isEmpty = true
  · rw [if_pos h1, if_pos h1]
  · rw [if_neg h1, if_neg h1]
    by_cases h2 : hasMathChar (pyStrip a) = true
    · rw [if_pos h2, if_pos h2]
    · rw [if_neg h2, if_neg h2]
      by_cases h3 : (pyStrip a).contains ',' = true
      · rw [if_pos h3, if_pos h3, filterMap_strip]
      · rw [if_neg h3, if_neg h3]

/-- C6: `_decompose_problem` (with no RAG context) splits the problem into
sentences at sentence-ending punctuation followed by whitespace, keeps a
non-empty trimmed sentence containing any of `0-9 = + - * / ^ ( )` as one
atomic step, else splits it on commas into trimmed non-empty steps when it
has a comma, else keeps it whole, in original sentence order; in
particular the two cited examples decompose as claimed. -/
theorem decompose_matches_spec :
    (∀ problem : PyStr, _decompose_problem problem [] = decomposeSpec problem)
      ∧ _decompose_problem "Find area, then find perimeter".toList [] =
          ["Find area".toList, "then find perimeter".toList]
      ∧ _decompose_problem "Solve x+2=5 for x.".toList [] =
          ["Solve x+2=5 for x.".toList] := by
  refine ⟨?_, by decide, by decide⟩
  intro problem
  simp only [_decompose_problem, decomposeSpec, List.isEmpty_nil, if_true]
  generalize sentSplit problem = L
  induction L with
  | nil => rfl
  | cons a L ih =>
    simp only [List.flatMap_cons, List.map_cons, ih]
    congr 1
    exact sentenceSteps_eq a

/-- With `verify=False` the loop never calls the Verifier and stores no
verification. -/
lemma planLoop_false (v : Verifier) :
    ∀ l : List PyStr, planLoop v false l = (l.map (fun s => ⟨s, none⟩), []) := by
  intro l
  induction l with
  | nil => rfl
  | cons s l ih => simp [planLoop, ih]

/-- With `verify=True` the loop calls the Verifier once per step, in step
order, and stores the resulting verification on each step. -/
lemma planLoop_true (v : Verifier) :
    ∀ l : List PyStr,
      planLoop v true l = (l.map (fun s => ⟨s, some (runVerification v s)⟩), l) := by
  intro l
  induction l with
  | nil => rfl
  | cons s l ih => simp [planLoop, ih]

/-- C7: with `verify=false`, `plan` produces the same output for any two
Verifier implementations, makes zero Verifier calls, and leaves every
step's verification absent. -/
theorem plan_without_verify (sim : List ℚ → List ℚ → ℚ) (v1 v2 : Verifier)
    (st : PlannerState) (problem : PyStr) (uid : Option PyStr) :
    ReActPlanner_plan sim v1 st problem uid false =
        ReActPlanner_plan sim v2 st problem uid false
      ∧ (ReActPlanner_plan sim v1 st problem uid false).2.2 = []
      ∧ (ReActPlanner_plan sim v1 st problem uid false).1.plan =
          (planDecomposition sim st problem uid).map (fun s => ⟨s, none⟩) := by
  refine ⟨?_, ?_, ?_⟩ <;>
    simp [ReActPlanner_plan, planLoop_false, planDecomposition, planRagContext]

/-- C8: with `verify=true`, `plan` calls the Verifier exactly once per
decomposed step in order, records `{tool, result}` on success and
`{tool, error}` on failure, never aborts on a Verifier failure, and the
returned plan contains every decomposed step. -/
theorem plan_with_verify (sim : List ℚ → List ℚ → ℚ) (verifier : Verifier)
    (st : PlannerState) (problem : PyStr) (uid : Option PyStr) :
    (ReActPlanner_plan sim verifier st problem uid true).1.plan =
        (planDecomposition sim st problem uid).map
          (fun s => ⟨s, some (runVerification verifier s)⟩)
      ∧ (ReActPlanner_plan sim verifier st problem uid true).2.2 =
          planDecomposition sim st problem uid
      ∧ (ReActPlanner_plan sim verifier st problem uid true).1.plan.map
            PlanStep.step = planDecomposition sim st problem uid
      ∧ ∀ s, runVerification verifier s =
          (match verifier s with
           | Except.ok r => Verification.ok "sympy".toList r
           | Except.error e => Verification.err "sympy".toList e) := by
  have h1 : (ReActPlanner_plan sim verifier st problem uid true).1.plan =
      (planDecomposition sim st problem uid).map
        (fun s => ⟨s, some (runVerification verifier s)⟩) := by
    simp [ReActPlanner_plan, planLoop_true, planDecomposition, planRagContext]
  refine ⟨h1, ?_, ?_, fun s => rfl⟩
  · simp [ReActPlanner_plan, planLoop_true, planDecomposition, planRagContext]
  · rw [h1, List.map_map]
    exact List.map_id _

/-- Taking the last `m` elements, stated two ways. -/
lemma reverse_take_reverse {α : Type} (l : List α) (m : Nat) :
    ((l.reverse.take m).reverse : List α) = l.drop (l.length - m) := by
  rw [List.reverse_take, List.reverse_reverse, List.length_reverse]

/-- C9 counterexample: for an owner with one stored turn, `limit = 0` is
falsy in Python, so `get_conversation` returns all turns — not the most
recent 0 (the empty sequence) as the claim requires for every non-negative
limit. -/
theorem get_history_limit_zero_counterexample :
    get_conversation exStOne "a".toList (some 0) =
        [⟨"user".toList, "hi".toList, 0⟩]
      ∧ get_conversation exStOne "a".toList (some 0) ≠ [] :=
  ⟨by decide, by decide⟩

/-- C9 amended: for a positive limit `n`, `get_conversation` returns the
most recent `n` stored turns in chronological order; `limit = 0` behaves
like an absent limit (all turns are returned, because `0` is falsy); an
absent limit returns all turns; a missing owner yields the empty sequence
without error for any limit. -/
theorem get_conversation_amended (st : MemoryStore) (cid : PyStr) :
    (∀ n : Int, 0 < n →
        get_conversation st cid (some n) =
          ((convMsgs st cid).reverse.take n.toNat).reverse)
      ∧ get_conversation st cid (some 0) = convMsgs st cid
      ∧ get_conversation st cid none = convMsgs st cid
      ∧ (alistGet? cid st.conversations = none →
          ∀ lim, get_conversation st cid lim = []) := by
  refine ⟨?_, by simp [get_conversation], rfl, ?_⟩
  · intro n hn
    have hne : n ≠ 0 := ne_of_gt hn
    have hneg : ¬(0 ≤ -n) := by omega
    have habs : (-n).natAbs = n.toNat := by omega
    simp only [get_conversation, hne, if_false, pySliceFrom, hneg, habs]
    exact (reverse_take_reverse (convMsgs st cid) n.toNat).symm
  · intro h lim
    have hm : convMsgs st cid = [] := by simp [convMsgs, h]
    cases lim with
    | none => exact hm
    | some n =>
      by_cases hn : n = 0 <;> simp [get_conversation, hn, pySliceFrom, hm]

/-- Witness for C9 (amended) at the concrete one-turn store. -/
theorem get_conversation_amended_witness :
    ((0 : Int) < 1)
      ∧ get_conversation exStOne "a".toList (some 1) =
          ((convMsgs exStOne "a".toList).reverse.take (1 : Int).toNat).reverse :=
  ⟨by decide, (get_conversation_amended exStOne "a".toList).1 1 (by decide)⟩

/-- A key found in the left part of an appended association list is still
found after the append. -/
lemma alistGet?_append_left {β : Type} {u : PyStr} {s : β}
    {l l2 : List (PyStr × β)} (h : alistGet? u l = some s) :
    alistGet? u (l ++ l2) = some s := by
  unfold alistGet? at h ⊢
  cases hf : l.find? (fun p => p.1 == u) with
  | none => rw [hf] at h; simp at h
  | some q =>
    rw [hf] at h
    rw [List.find?_append, hf]
    exact h

/-- Appending a new binding for an absent key makes lookup find it. -/
lemma alistGet?_append_self {β : Type} (u : PyStr) (s : β)
    (l : List (PyStr × β)) (h : alistGet? u l = none) :
    alistGet? u (l ++ [(u, s)]) = some s := by
  unfold alistGet? at h ⊢
  cases hf : l.find? (fun p => p.1 == u) with
  | some q => rw [hf] at h; simp at h
  | none =>
    rw [List.find?_append, hf]
    simp

/-- C10: `retrieve` leaves the global store and every existing per-user
store unchanged; when `userId` is falsy the state is untouched, when
`userId` is a new user an empty store (inheriting the global embedder and
dimension) is appended for it, and a repeated call leaves the state
fixed (the created store is reused). -/
theorem retrieve_frame (sim : List ℚ → List ℚ → ℚ) (st : RAGState)
    (query : PyStr) (uid : Option PyStr) (kg ku : Int) :
    (retrieve sim st query uid kg ku).2.global_store = st.global_store
      ∧ (∀ u s, alistGet? u st.user_stores = some s →
          alistGet? u (retrieve sim st query uid kg ku).2.user_stores = some s)
      ∧ (pyTruthyStr uid = false → (retrieve sim st query uid kg ku).2 = st)
      ∧ (∀ u0, uid = some u0 → pyTruthyStr uid = true →
          ((∃ s, alistGet? u0 st.user_stores = some s) →
              (retrieve sim st query uid kg ku).2 = st)
            ∧ (alistGet? u0 st.user_stores = none →
              (retrieve sim st query uid kg ku).2.user_stores =
                st.user_stores ++
                  [(u0, mkMemoryStore st.global_store.embedding_fn
                      st.global_store.embedding_dim)]))
      ∧ (retrieve sim (retrieve sim st query uid kg ku).2 query uid kg ku).2 =
          (retrieve sim st query uid kg ku).2 := by
  by_cases ht : pyTruthyStr uid = true
  · cases uid with
    | none => simp [pyTruthyStr] at ht
    | some u0 =>
      cases hl : alistGet? u0 st.user_stores with
      | some s =>
        have hg : _get_user_store st u0 = (s, st) := by
          simp [_get_user_store, hl]
        have h2 : (retrieve sim st query (some u0) kg ku).2 = st := by
          simp [retrieve, ht, hg]
        refine ⟨by rw [h2], fun u s1 h => by rw [h2]; exact h,
          fun hf => absurd ht (by simp [hf]), ?_, by rw [h2]; exact h2⟩
        intro u1 he _
        injection he with he0
        subst he0
        exact ⟨fun _ => h2, fun hln => by rw [hln] at hl; cases hl⟩
      | none =>
        have hg : _get_user_store st u0 =
            (mkMemoryStore st.global_store.embedding_fn st.global_store.embedding_dim,
             { st with user_stores := st.user_stores ++
                [(u0, mkMemoryStore st.global_store.embedding_fn
                    st.global_store.embedding_dim)] }) := by
          simp [_get_user_store, hl]
        have h2 : (retrieve sim st query (some u0) kg ku).2 =
            { st with user_stores := st.user_stores ++
                [(u0, mkMemoryStore st.global_store.embedding_fn
                    st.global_store.embedding_dim)] } := by
          simp [retrieve, ht, hg]
        have hl2 : alistGet? u0 (retrieve sim st query (some u0) kg ku).2.user_stores =
            some (mkMemoryStore st.global_store.embedding_fn
              st.global_store.embedding_dim) := by
          rw [h2]
          exact alistGet?_append_self u0 _ st.user_stores hl
        refine ⟨by rw [h2], ?_, fun hf => absurd ht (by simp [hf]), ?_, ?_⟩
        · intro u s1 h
          rw [h2]
          exact alistGet?_append_left h
        · intro u1 he _
          injection he with he0
          subst he0
          refine ⟨fun hex => ?_, fun _ => by rw [h2]⟩
          rcases hex with ⟨s1, hs1⟩
          rw [hs1] at hl
          cases hl
        · have hl3 := alistGet?_append_self u0
            (mkMemoryStore st.global_store.embedding_fn st.global_store.embedding_dim)
            st.user_stores hl
          have hR : _get_user_store
              ({ st with user_stores := st.user_stores ++
                  [(u0, mkMemoryStore st.global_store.embedding_fn
                      st.global_store.embedding_dim)] }) u0 =
              (mkMemoryStore st.global_store.embedding_fn st.global_store.embedding_dim,
               { st with user_stores := st.user_stores ++
                  [(u0, mkMemoryStore st.global_store.embedding_fn
                      st.global_store.embedding_dim)] }) := by
            unfold _get_user_store
            dsimp only
            rw [hl3]
          rw [h2]
          simp [retrieve, ht, hR]
  · have ht' : pyTruthyStr uid = false := by simpa using ht
    have h2 : (retrieve sim st query uid kg ku).2 = st := by
      simp [retrieve, ht']
    refine ⟨by rw [h2], fun u s h => by rw [h2]; exact h, fun _ => h2, ?_,
      by rw [h2]; exact h2⟩
    intro u0 _ htt
    rw [htt] at ht'
    cases ht'

/-- Witness for C10: retrieving for the unseen user `"bob"` appends an
empty store for `"bob"` and nothing else. -/
theorem retrieve_frame_witness :
    pyTruthyStr (some "bob".toList) = true
      ∧ alistGet? "bob".toList exStRag.user_stores =
          (none : Option MemoryStore)
      ∧ (retrieve simZero exStRag "x".toList (some "bob".toList) 3 3).2.user_stores =
          exStRag.user_stores ++
            [("bob".toList, mkMemoryStore exStRag.global_store.embedding_fn
                exStRag.global_store.embedding_dim)] :=
  ⟨by decide, rfl,
   ((retrieve_frame simZero exStRag "x".toList (some "bob".toList) 3 3).2.2.2.1
      "bob".toList rfl (by decide)).2 rfl⟩

end Tensorpilot
